import Mathlib

/-!
Shallow embedding of `src/firestore-query.js` (MockFirestoreQuery), the query
evaluation and deferred-execution engine of the firebase-mock repository.

JSON-like document values are modelled by the inductive type `Value`; lodash
deep equality (`_.isEqual`) is modelled by structural equality `Value.beq`.
JavaScript numbers are embedded as integers (all numeric data handled by the
claims is integral).  `_.cloneDeep` / `utils.cleanFirestoreData` are identities
in this value-level semantics (the source uses them only to sever object
aliasing, which a value semantics has no notion of).
-/

namespace FirebaseMock

/-- Document values: the JSON-like data stored under each record key. -/
inductive Value where
  | vnull
  | vbool (b : Bool)
  | vnum (n : Int)
  | vstr (s : String)
  | varr (elems : List Value)
  | vobj (fields : List (String × Value))

instance : Inhabited Value := ⟨Value.vnull⟩

mutual

/-- Deep equality of document values, the model of lodash `_.isEqual`. -/
def Value.beq : Value → Value → Bool
  | .vnull, .vnull => true
  | .vbool a, .vbool b => a == b
  | .vnum a, .vnum b => a == b
  | .vstr a, .vstr b => a == b
  | .varr xs, .varr ys => Value.beqList xs ys
  | .vobj xs, .vobj ys => Value.beqFields xs ys
  | _, _ => false

/-- Elementwise deep equality of value arrays. -/
def Value.beqList : List Value → List Value → Bool
  | [], [] => true
  | x :: xs, y :: ys => Value.beq x y && Value.beqList xs ys
  | _, _ => false

/-- Fieldwise deep equality of object field lists. -/
def Value.beqFields : List (String × Value) → List (String × Value) → Bool
  | [], [] => true
  | (k, x) :: xs, (k2, y) :: ys => k == k2 && Value.beq x y && Value.beqFields xs ys
  | _, _ => false

end

/-- Field lookup on an object value (`undefined`, i.e. `none`, elsewhere). -/
def Value.getField (v : Value) (k : String) : Option Value :=
  match v with
  | .vobj fs => (fs.find? (fun f => f.1 == k)).map Prod.snd
  | _ => none

/-- Resolution of a dot-split property path inside a value, the model of
lodash `_.get` on the document body (array-index segments are not specially
handled, matching the mock's use of object field access only). -/
def getIn (v : Value) : List String → Option Value
  | [] => some v
  | s :: rest =>
    match v.getField s with
    | some v2 => getIn v2 rest
    | none => none

/-- The `property` argument of `where`/`orderBy`.  `getPropertyPath` in the
source normalizes it: the `FieldPath.documentId()` sentinel becomes the path
`key` into the `{data, key}` queryable wrapper, and a string or `FieldPath`
becomes `data.` followed by the dot-joined segments, which lodash `_.get`
re-splits into segments.  `field segs` carries those segments. -/
inductive PropArg where
  | docId
  | field (segs : List String)

/-- Resolution of a property argument against a record `(key, value)`, the
composition of `getPropertyPath` and `_.get` on `{data: value, key: key}`. -/
def resolveProp (p : PropArg) (kv : String × Value) : Option Value :=
  match p with
  | .docId => some (.vstr kv.1)
  | .field segs => getIn kv.2 segs

/-- Resolution of the raw `property` against the document body only, as used
by the `array-contains` and `in` branches of `where` (`_.get(data, property)`;
the document-id sentinel resolves to nothing there). -/
def resolveRaw (p : PropArg) (v : Value) : Option Value :=
  match p with
  | .docId => none
  | .field segs => getIn v segs

/-- Membership of a value in an array value, the model of `_.includes`
(SameValueZero membership approximated by deep equality on this value
domain; non-array collections yield no members here). -/
def includesVal (c : Option Value) (v : Value) : Bool :=
  match c with
  | some (.varr xs) => xs.any (fun x => Value.beq x v)
  | _ => false

/-- Deep equality between a resolved (possibly missing) value and a target
value: `_.isEqual(_.get(...), value)` with a present target. -/
def isEqualOV (ov : Option Value) (v : Value) : Bool :=
  match ov with
  | some w => Value.beq w v
  | none => false

/-- Cursor resolver state builder: `buildStartFinder` is the constructor
default (always `true`) until `startAfter` installs the exclusive-after
closure over a referenced document id. -/
inductive StartFinder where
  | always
  | afterKey (refId : String)

/-- One call of the cursor resolver closure on a record key: given the
closure's captured `next` flag, returns the resolver's verdict and the
updated flag (`next = key === doc.ref.id` once, latching). -/
def stepFinder (sf : StartFinder) (next : Bool) (k : String) : Bool × Bool :=
  match sf with
  | .always => (true, next)
  | .afterKey refId =>
    if next then (true, next) else (false, next || (k == refId))

/-- The query/engine state (`MockFirestoreQuery`): data snapshot, parallel
sort-key and direction arrays, limit, cursor resolver builder, and pending
injected errors keyed by operation name.  The flush queue, auto-flush flag
and parent reference live in the heap model below, where object identity
matters. -/
structure Query where
  data : List (String × Value)
  orderedProperties : List PropArg
  orderedDirections : List String
  limited : Int
  startFinder : StartFinder
  errs : String → Option String

/-- The `_nextErr` helper: read and delete the pending error for an
operation name. -/
def nextErr (errs : String → Option String) (ty : String) :
    Option String × (String → Option String) :=
  (errs ty, fun t => if t = ty then none else errs t)

/-- The `clone` method: a fresh instance built by the constructor (hence
an empty `errs` object) carrying copies of the receiver's data, sort keys,
limit and cursor builder. -/
def Query.clone (q : Query) : Query :=
  { q with errs := fun _ => none }

/-- Operator support check from `where`: only `==`, `array-contains` and
`in` are supported. -/
def supportedOp (op : String) : Bool :=
  op == "==" || op == "array-contains" || op == "in"

/-- The per-record predicate of the `where` filter switch. -/
def whereMatches (prop : PropArg) (op : String) (v : Value)
    (kv : String × Value) : Bool :=
  match op with
  | "==" => isEqualOV (resolveProp prop kv) v
  | "array-contains" => includesVal (resolveRaw prop kv.2) v
  | "in" =>
    match resolveRaw prop kv.2 with
    | some rv => includesVal (some v) rv
    | none => false
  | _ => true

/-- The `where` method.  Returns the clone together with the
unsupported-operator warning flag (`console.warn` surfaced as a Boolean):
an unsupported operator leaves the clone's dataset untouched, a supported
one stores the filtered record set (or the cleaned empty set) in the
clone. -/
def Query.whereW (q : Query) (prop : PropArg) (op : String) (v : Value) :
    Query × Bool :=
  let query := q.clone
  if supportedOp op = false then
    (query, true)
  else if q.data.isEmpty then
    ({ query with data := [] }, false)
  else
    ({ query with data := q.data.filter (whereMatches prop op v) }, false)

/-- The `where` method's returned query. -/
def Query.whereQ (q : Query) (prop : PropArg) (op : String) (v : Value) :
    Query :=
  (q.whereW prop op v).1

/-- The `orderBy` method: clone, then push the sort key and its direction
(defaulting to ascending when omitted). -/
def Query.orderBy (q : Query) (prop : PropArg) (direction : Option String) :
    Query :=
  let query := q.clone
  { query with
    orderedProperties := q.orderedProperties ++ [prop],
    orderedDirections := q.orderedDirections ++ [direction.getD "asc"] }

/-- The `limit` method: clone with the cap overwritten. -/
def Query.limit (q : Query) (n : Int) : Query :=
  let query := q.clone
  { query with limited := n }

/-- The argument of `startAfter`: either a genuine `DocumentSnapshot`
carrying its `ref.id`, or anything else (the malformed-cursor case). -/
structure SADoc where
  isSnapshot : Bool
  refId : String

/-- The `startAfter` method: a malformed argument warns and returns the
receiver unchanged; a snapshot argument on an unordered query throws the
pagination-configuration error synchronously; otherwise the clone gets the
exclusive-after cursor builder over the referenced document id. -/
def Query.startAfter (q : Query) (doc : SADoc) : Except String Query :=
  if doc.isSnapshot = false then
    .ok q
  else if q.orderedProperties.isEmpty then
    .error "Query must be ordered to paginate"
  else
    .ok { q.clone with startFinder := .afterKey doc.refId }

/-- Sort keys for the multi-key sort: each resolved criterion is projected
into a linearly ordered type (type rank, then numeric, string and Boolean
payload, lexicographically). -/
abbrev SortKey : Type := Lex (Nat × Lex (Int × Lex (String × Bool)))

/-- Packaging of a sort-key tuple. -/
def mkKey (r : Nat) (n : Int) (s : String) (b : Bool) : SortKey :=
  toLex (r, toLex (n, toLex (s, b)))

/-- Modelled from the spec: the repository's lodash wrapper (`./lodash`,
not under `src/`) supplies `_.orderBy`'s per-criterion ascending
comparison; the spec pins only that evaluation `stable-sort[s] by the
declared keys/directions`.  Each resolved criterion is projected into the
linearly ordered `SortKey`; a missing (`undefined`) criterion sorts after
every present one, mirroring lodash's ascending placement of
`undefined`. -/
def sortProj : Option Value → SortKey
  | some (.vnum n) => mkKey 0 n "" false
  | some (.vstr s) => mkKey 1 0 s false
  | some (.vbool b) => mkKey 2 0 "" b
  | some (.varr _) => mkKey 3 0 "" false
  | some (.vobj _) => mkKey 4 0 "" false
  | some .vnull => mkKey 5 0 "" false
  | none => mkKey 6 0 "" false

/-- The sort criterion of one `orderBy` key resolved on a record, i.e.
`getPropertyPath` composed with `_.get` on the `{data, key}` wrapper. -/
def critOf (p : PropArg) (kv : String × Value) : SortKey :=
  sortProj (resolveProp p kv)

/-- One `orderBy` key's record comparison: ascending `compare` on the
projected criteria, with the argument order flipped for the `desc`
direction (lodash negates the ascending result; for a lawful comparison
the two are the same function). -/
def cmpDir (p : PropArg) (d : String) :
    (String × Value) → (String × Value) → Ordering :=
  if d = "desc" then fun a b => compare (critOf p b) (critOf p a)
  else fun a b => compare (critOf p a) (critOf p b)

/-- Lexicographic composition of a list of comparators: the first
non-`eq` verdict wins, mirroring lodash `compareMultiple` applied to the
`orderBy` keys left-to-right in call order. -/
def lexComp {α : Type _} (cs : List (α → α → Ordering)) (a b : α) : Ordering :=
  match cs with
  | [] => .eq
  | c :: rest =>
    match c a b with
    | .eq => lexComp rest a b
    | o => o

/-- The multi-key record comparator of a query's `orderBy` declarations. -/
def recCmp (specs : List (PropArg × String)) :
    (String × Value) → (String × Value) → Ordering :=
  lexComp (specs.map (fun pd => cmpDir pd.1 pd.2))

/-- Modelled from the spec: stable insertion step of the sort — an element
moves past exactly the elements strictly greater than it, so elements
comparing equal keep their relative order. -/
def insertStable {α : Type _} (c : α → α → Ordering) (x : α) : List α → List α
  | [] => [x]
  | y :: ys => if c x y = .gt then y :: insertStable c x ys else x :: y :: ys

/-- Modelled from the spec: the stable sort (`_.orderBy` of the repository's
lodash wrapper, which is not under `src/`): `equal tuples preserve relative
order`. -/
def sortStable {α : Type _} (c : α → α → Ordering) : List α → List α
  | [] => []
  | x :: xs => insertStable c x (sortStable c xs)

/-- The sort-key/direction pairs of a query (the two parallel arrays
zipped, as lodash `_.orderBy` consumes them). -/
def Query.specs (q : Query) : List (PropArg × String) :=
  q.orderedProperties.zip q.orderedDirections

/-- The evaluation traversal of `_results`: stored insertion order when no
sort keys are declared, otherwise the stable multi-key sort of the record
tuples. -/
def Query.traversal (q : Query) : List (String × Value) :=
  if q.orderedProperties.isEmpty then q.data
  else sortStable (recCmp q.specs) q.data

/-- The record walk of `_results`: `inRange` (cursor latch `atStart` plus
the resolver closure state `next`) combined with the running `limit`
counter; state advances on every record, a record is emitted when it is in
range and the cap (`limited <= 0` meaning unbounded) is not yet reached. -/
def runFilter (sf : StartFinder) (limited : Int) :
    List (String × Value) → Bool → Bool → Nat → List (String × Value)
  | [], _, _, _ => []
  | (k, v) :: rest, atStart, next, cnt =>
    let inR := atStart || (stepFinder sf next k).1
    let next2 := if atStart then next else (stepFinder sf next k).2
    if inR = true ∧ (limited ≤ 0 ∨ (cnt : Int) < limited) then
      (k, v) :: runFilter sf limited rest inR next2 (cnt + 1)
    else
      runFilter sf limited rest inR next2 cnt

/-- The `_results` method: empty data short-circuits, otherwise the
(possibly sorted) traversal is walked with a fresh cursor resolver and
limit counter. -/
def Query.results (q : Query) : List (String × Value) :=
  if q.data.isEmpty then []
  else runFilter q.startFinder q.limited q.traversal false false 0

/-- The `get` method, observed at its promise's settlement after the queue
flushes the deferred unit: the pending `get` error is consumed at call
time; the promise rejects with it when present and otherwise resolves with
the freshly evaluated results (the empty-data case resolving with the
empty snapshot).  The pair carries the query's state after the call (its
error map possibly consumed). -/
def Query.get (q : Query) : Except String (List (String × Value)) × Query :=
  match nextErr q.errs "get" with
  | (some e, errs2) => (.error e, { q with errs := errs2 })
  | (none, errs2) => (.ok q.results, { q with errs := errs2 })

/-- One observable callback of an `onSnapshot` subscription: a delivered
result set or a delivered error. -/
inductive SnapEvent where
  | next (rs : List (String × Value))
  | errE (e : String)

/-- Deep equality of result sets, `_.isEqual` on result mappings. -/
def isEqRes : List (String × Value) → List (String × Value) → Bool
  | [], [] => true
  | (k, x) :: xs, (k2, y) :: ys =>
    k == k2 && Value.beq x y && isEqRes xs ys
  | _, _ => false

/-- The post-flush deliveries of a live subscription: `ctx` is
`context.data`, the last delivered result set; a freshly evaluated result
set is delivered when it differs from `ctx` by deep equality or when the
include-metadata-changes option forces emission, and only then is `ctx`
updated. -/
def postDeliveries (ctx : List (String × Value)) (incMeta : Bool) :
    List (List (String × Value)) → List (List (String × Value))
  | [] => []
  | r :: rs =>
    if isEqRes r ctx = false ∨ incMeta = true then
      r :: postDeliveries r incMeta rs
    else
      postDeliveries ctx incMeta rs

/-- The results a query would evaluate to over a replaced data snapshot
(the subscribed query observing the store changing between flushes). -/
def Query.resultsWith (q : Query) (d : List (String × Value)) :
    List (String × Value) :=
  Query.results { q with data := d }

/-- Modelled from the spec for the queue collaborator (`./queue`, not under
`src/`): the handler registered with `onPostFlush` runs once after every
flush.  `onSnapshot`'s observable callback sequence: the pending
`onSnapshot` error is consumed at subscription time; the captured error, if
any, is delivered to the error callback at the synchronous initial call and
again at every post-flush invocation of the same closure; with no error,
the initial call synchronously delivers the current evaluation, and each
post-flush invocation re-evaluates against the store state of that flush
and delivers exactly the changed result sets (or all of them, under the
include-metadata-changes option). -/
def Query.snapEvents (q : Query) (incMeta : Bool)
    (flushStates : List (List (String × Value))) : List SnapEvent :=
  match (nextErr q.errs "onSnapshot").1 with
  | some e => .errE e :: flushStates.map (fun _ => .errE e)
  | none =>
    .next q.results ::
      (postDeliveries q.results incMeta
        (flushStates.map q.resultsWith)).map .next

/-- The query state right after an `onSnapshot` call: the pending
`onSnapshot` error has been consumed. -/
def Query.afterSnapshot (q : Query) : Query :=
  { q with errs := (nextErr q.errs "onSnapshot").2 }

/-! ### Heap model

Object identity and reference sharing (clone freshness, the shared flush
queue, receiver non-mutation) are invisible to a value semantics, so the
constructor, `clone` and the builder methods are additionally embedded over
an explicit heap of query objects.  Heap cells are addressed by allocation
index; queues are identified by allocation number (`nextQ`), two objects
sharing a queue exactly when they carry the same queue id. -/

/-- The `flushDelay` field: `false` (auto-flush off), `true` (flush ASAP)
or a numeric delay. -/
inductive FlushDelay where
  | off
  | asap
  | after (ms : Nat)
deriving DecidableEq

/-- A query object's heap-resident state: the evaluation fields of `Query`
plus the shared-queue id, the auto-flush flag and the parent reference. -/
structure QObj where
  data : List (String × Value)
  orderedProperties : List PropArg
  orderedDirections : List String
  limited : Int
  startFinder : StartFinder
  queueId : Nat
  flushDelay : FlushDelay
  parent : Option Nat

instance : Inhabited QObj :=
  ⟨⟨[], [], [], 0, .always, 0, .off, none⟩⟩

/-- The heap: allocated query objects and the next fresh queue id. -/
structure Heap where
  objs : List QObj
  nextQ : Nat

/-- Heap read (out-of-range reads yield the default object; all theorems
constrain indices to allocated cells). -/
def Heap.read (h : Heap) (r : Nat) : QObj :=
  h.objs.getD r default

/-- In-place update of one allocated cell. -/
def Heap.write (h : Heap) (r : Nat) (f : QObj → QObj) : Heap :=
  { h with objs := h.objs.set r (f (h.read r)) }

/-- The `MockFirestoreQuery` constructor over the heap: a parented query
inherits the parent's queue and auto-flush flag by reference, a parentless
one allocates a fresh queue and starts with auto-flush off; sort keys,
limit and cursor builder start empty.  Returns the updated heap and the
new object's address. -/
def mkQueryH (h : Heap) (data : List (String × Value)) (parent : Option Nat) :
    Heap × Nat :=
  match parent with
  | some p =>
    let po := h.read p
    ({ h with
       objs := h.objs ++
         [{ data := data, orderedProperties := [], orderedDirections := [],
            limited := 0, startFinder := .always, queueId := po.queueId,
            flushDelay := po.flushDelay, parent := some p }] },
     h.objs.length)
  | none =>
    ({ objs := h.objs ++
         [{ data := data, orderedProperties := [], orderedDirections := [],
            limited := 0, startFinder := .always, queueId := h.nextQ,
            flushDelay := .off, parent := none }],
       nextQ := h.nextQ + 1 },
     h.objs.length)

/-- The `clone` method over the heap: the constructor is called with the
receiver's path, copied data and the receiver's `parent` (not the receiver
itself), then the sort keys, limit and cursor builder are copied onto the
new object. -/
def cloneH (h : Heap) (r : Nat) : Heap × Nat :=
  let o := h.read r
  let hn := mkQueryH h o.data o.parent
  (hn.1.write hn.2 (fun c =>
    { c with
      orderedProperties := o.orderedProperties,
      orderedDirections := o.orderedDirections,
      limited := o.limited,
      startFinder := o.startFinder }), hn.2)

/-- The `where` method over the heap: clone, then store the filtered (or
unchanged, for an unsupported operator) dataset on the clone. -/
def whereH (h : Heap) (r : Nat) (prop : PropArg) (op : String) (v : Value) :
    Heap × Nat :=
  if supportedOp op = false then cloneH h r
  else if (h.read r).data.isEmpty then
    ((cloneH h r).1.write ((cloneH h r).2) (fun c => { c with data := [] }),
     (cloneH h r).2)
  else
    ((cloneH h r).1.write ((cloneH h r).2)
      (fun c =>
        { c with data := (h.read r).data.filter (whereMatches prop op v) }),
     (cloneH h r).2)

/-- The `orderBy` method over the heap. -/
def orderByH (h : Heap) (r : Nat) (prop : PropArg) (direction : Option String) :
    Heap × Nat :=
  ((cloneH h r).1.write ((cloneH h r).2) (fun c =>
    { c with
      orderedProperties := c.orderedProperties ++ [prop],
      orderedDirections := c.orderedDirections ++ [direction.getD "asc"] }),
   (cloneH h r).2)

/-- The `limit` method over the heap. -/
def limitH (h : Heap) (r : Nat) (n : Int) : Heap × Nat :=
  ((cloneH h r).1.write ((cloneH h r).2) (fun c => { c with limited := n }),
   (cloneH h r).2)

/-- The `startAfter` method over the heap: a malformed argument warns and
returns the receiver's own address on the untouched heap; a snapshot
argument without a prior `orderBy` throws; otherwise the clone carries the
cursor builder. -/
def startAfterH (h : Heap) (r : Nat) (doc : SADoc) :
    Except String (Heap × Nat) :=
  if doc.isSnapshot = false then
    .ok (h, r)
  else if (h.read r).orderedProperties.isEmpty then
    .error "Query must be ordered to paginate"
  else
    .ok ((cloneH h r).1.write ((cloneH h r).2)
          (fun c => { c with startFinder := .afterKey doc.refId }),
         (cloneH h r).2)

/-- The `autoFlush` method on a query with no parent and no registered
children (clones register nowhere, so a freshly built root has none): the
recursive propagation body over `children` and `parent` is empty and only
the receiver's own flag is written. -/
def autoFlushRootH (h : Heap) (r : Nat) (delay : FlushDelay) : Heap :=
  h.write r (fun o => { o with flushDelay := delay })

/-! ### Comparator laws

The per-key comparisons and their lexicographic compositions are lawful
linear comparators; these laws drive the permutation, sortedness and
stability proofs about the stable sort. -/

/-- Lawfulness of an `Ordering`-valued comparator: reflexivity, the
swap law, congruence of equivalent elements on either side, and the two
mixed strict/weak transitivity laws. -/
structure LinCmp {α : Type _} (c : α → α → Ordering) : Prop where
  refl : ∀ a, c a a = .eq
  gt_iff : ∀ a b, (c a b = .gt ↔ c b a = .lt)
  congr_l : ∀ a b x, c a b = .eq → c a x = c b x
  congr_r : ∀ a b x, c a b = .eq → c x a = c x b
  lt_le : ∀ a b x, c a b = .lt → c b x ≠ .gt → c a x = .lt
  le_lt : ∀ a b x, c a b ≠ .gt → c b x = .lt → c a x = .lt

theorem LinCmp.eq_symm {α : Type _} {c : α → α → Ordering} (hc : LinCmp c)
    {a b : α} (h : c a b = .eq) : c b a = .eq := by
  have h2 := hc.congr_l a b a h
  rw [hc.refl a] at h2
  exact h2.symm

theorem LinCmp.le_trans {α : Type _} {c : α → α → Ordering} (hc : LinCmp c)
    {a b x : α} (h1 : c a b ≠ .gt) (h2 : c b x ≠ .gt) : c a x ≠ .gt := by
  cases hab : c a b with
  | gt => exact absurd hab h1
  | lt => rw [hc.lt_le a b x hab h2]; simp
  | eq => rw [hc.congr_l a b x hab]; exact h2

theorem LinCmp.eq_class {α : Type _} {c : α → α → Ordering} (hc : LinCmp c)
    {a y r : α} (h1 : c a r = .eq) (h2 : c y r = .eq) : c a y = .eq := by
  have h3 : c r y = .eq := hc.eq_symm h2
  rw [hc.congr_l a r y h1]
  exact h3

theorem lincmp_compare {α : Type _} {K : Type _} [LinearOrder K]
    (f : α → K) : LinCmp (fun a b => compare (f a) (f b)) := by
  constructor
  · intro a; exact compare_eq_iff_eq.mpr rfl
  · intro a b
    rw [compare_gt_iff_gt, compare_lt_iff_lt]
  · intro a b x h
    rw [compare_eq_iff_eq.mp h]
  · intro a b x h
    rw [compare_eq_iff_eq.mp h]
  · intro a b x h1 h2
    rw [compare_lt_iff_lt] at h1 ⊢
    have h3 : ¬ (f x < f b) := fun hlt => h2 (compare_gt_iff_gt.mpr hlt)
    exact lt_of_lt_of_le h1 (not_lt.mp h3)
  · intro a b x h1 h2
    rw [compare_lt_iff_lt] at h2 ⊢
    have h3 : ¬ (f b < f a) := fun hlt => h1 (compare_gt_iff_gt.mpr hlt)
    exact lt_of_le_of_lt (not_lt.mp h3) h2

theorem LinCmp.flip {α : Type _} {c : α → α → Ordering} (hc : LinCmp c) :
    LinCmp (fun a b => c b a) := by
  constructor
  · exact hc.refl
  · intro a b; exact hc.gt_iff b a
  · intro a b x h; exact (hc.congr_r b a x h).symm
  · intro a b x h; exact (hc.congr_l b a x h).symm
  · intro a b x h1 h2; exact hc.le_lt x b a h2 h1
  · intro a b x h1 h2; exact hc.lt_le x b a h2 h1

theorem lincmp_cmpDir (p : PropArg) (d : String) : LinCmp (cmpDir p d) := by
  unfold cmpDir
  split
  · exact (lincmp_compare (critOf p)).flip
  · exact lincmp_compare (critOf p)

theorem lexComp_nil {α : Type _} (a b : α) : lexComp [] a b = .eq := rfl

theorem lexComp_cons {α : Type _} (c : α → α → Ordering)
    (cs : List (α → α → Ordering)) (a b : α) :
    lexComp (c :: cs) a b =
      match c a b with
      | .eq => lexComp cs a b
      | o => o := rfl

theorem lincmp_lexComp {α : Type _} (cs : List (α → α → Ordering))
    (h : ∀ c ∈ cs, LinCmp c) : LinCmp (lexComp cs) := by
  induction cs with
  | nil =>
    constructor <;> intros <;> simp_all [lexComp_nil]
  | cons c rest ih =>
    have hc : LinCmp c := h c (List.mem_cons_self c rest)
    have hr : LinCmp (lexComp rest) :=
      ih (fun c2 hc2 => h c2 (List.mem_cons_of_mem c hc2))
    constructor
    · intro a
      rw [lexComp_cons, hc.refl a, hr.refl a]
    · intro a b
      cases hab : c a b with
      | lt =>
        have hba : c b a = .gt := (hc.gt_iff b a).mpr hab
        rw [lexComp_cons, lexComp_cons, hab, hba]
        simp
      | eq =>
        have hba : c b a = .eq := hc.eq_symm hab
        rw [lexComp_cons, lexComp_cons, hab, hba]
        exact hr.gt_iff a b
      | gt =>
        have hba : c b a = .lt := (hc.gt_iff a b).mp hab
        rw [lexComp_cons, lexComp_cons, hab, hba]
        simp
    · intro a b x hab
      rw [lexComp_cons] at hab
      cases h1 : c a b with
      | lt => rw [h1] at hab; exact absurd hab (by simp)
      | gt => rw [h1] at hab; exact absurd hab (by simp)
      | eq =>
        rw [h1] at hab
        rw [lexComp_cons, lexComp_cons, hc.congr_l a b x h1,
          hr.congr_l a b x hab]
    · intro a b x hab
      rw [lexComp_cons] at hab
      cases h1 : c a b with
      | lt => rw [h1] at hab; exact absurd hab (by simp)
      | gt => rw [h1] at hab; exact absurd hab (by simp)
      | eq =>
        rw [h1] at hab
        rw [lexComp_cons, lexComp_cons, hc.congr_r a b x h1,
          hr.congr_r a b x hab]
    · intro a b x hab hbx
      rw [lexComp_cons] at hab hbx ⊢
      cases h1 : c a b with
      | gt => rw [h1] at hab; exact absurd hab (by simp)
      | lt =>
        cases h2 : c b x with
        | gt => rw [h2] at hbx; exact absurd rfl hbx
        | lt => rw [hc.lt_le a b x h1 (by rw [h2]; simp)]
        | eq =>
          have h3 : c a b = c a x := hc.congr_r b x a h2
          rw [← h3, h1]
      | eq =>
        rw [h1] at hab
        have h4 : c a x = c b x := hc.congr_l a b x h1
        cases h2 : c b x with
        | gt => rw [h2] at hbx; exact absurd rfl hbx
        | lt => rw [h4, h2]
        | eq =>
          rw [h2] at hbx
          rw [h4, h2, hr.lt_le a b x hab hbx]
    · intro a b x hab hbx
      rw [lexComp_cons] at hab hbx ⊢
      cases h1 : c a b with
      | gt => rw [h1] at hab; exact absurd rfl hab
      | lt =>
        cases h2 : c b x with
        | gt => rw [h2] at hbx; exact absurd hbx (by simp)
        | lt => rw [hc.lt_le a b x h1 (by rw [h2]; simp)]
        | eq =>
          have h3 : c a b = c a x := hc.congr_r b x a h2
          rw [← h3, h1]
      | eq =>
        rw [h1] at hab
        have h4 : c a x = c b x := hc.congr_l a b x h1
        cases h2 : c b x with
        | gt => rw [h2] at hbx; exact absurd hbx (by simp)
        | lt => rw [h4, h2]
        | eq =>
          rw [h2] at hbx
          rw [h4, h2, hr.le_lt a b x hab hbx]

theorem lincmp_recCmp (specs : List (PropArg × String)) :
    LinCmp (recCmp specs) := by
  apply lincmp_lexComp
  intro c hcmem
  rw [List.mem_map] at hcmem
  obtain ⟨pd, _, hpd⟩ := hcmem
  rw [← hpd]
  exact lincmp_cmpDir pd.1 pd.2

/-! ### Stable sort lemmas -/

theorem insertStable_perm {α : Type _} (c : α → α → Ordering) (x : α)
    (l : List α) : (insertStable c x l).Perm (x :: l) := by
  induction l with
  | nil => exact List.Perm.refl _
  | cons y ys ih =>
    unfold insertStable
    split
    · exact (ih.cons y).trans (List.Perm.swap x y ys)
    · exact List.Perm.refl _

theorem sortStable_perm {α : Type _} (c : α → α → Ordering) (l : List α) :
    (sortStable c l).Perm l := by
  induction l with
  | nil => exact List.Perm.refl _
  | cons x xs ih =>
    exact (insertStable_perm c x (sortStable c xs)).trans (ih.cons x)

theorem insertStable_pairwise {α : Type _} {c : α → α → Ordering}
    (hc : LinCmp c) (x : α) (l : List α)
    (hl : l.Pairwise (fun a b => c a b ≠ .gt)) :
    (insertStable c x l).Pairwise (fun a b => c a b ≠ .gt) := by
  induction l with
  | nil => simp [insertStable]
  | cons y ys ih =>
    rw [List.pairwise_cons] at hl
    obtain ⟨hy, hys⟩ := hl
    unfold insertStable
    split
    · rename_i hgt
      rw [List.pairwise_cons]
      constructor
      · intro z hz
        rw [(insertStable_perm c x ys).mem_iff, List.mem_cons] at hz
        cases hz with
        | inl hzx =>
          rw [hzx, (hc.gt_iff x y).mp hgt]
          simp
        | inr hzys => exact hy z hzys
      · exact ih hys
    · rename_i hng
      rw [List.pairwise_cons]
      constructor
      · intro z hz
        rw [List.mem_cons] at hz
        cases hz with
        | inl hzy => subst hzy; exact hng
        | inr hzys => exact hc.le_trans hng (hy z hzys)
      · rw [List.pairwise_cons]
        exact ⟨hy, hys⟩

theorem sortStable_pairwise {α : Type _} {c : α → α → Ordering}
    (hc : LinCmp c) (l : List α) :
    (sortStable c l).Pairwise (fun a b => c a b ≠ .gt) := by
  induction l with
  | nil => simp [sortStable]
  | cons x xs ih => exact insertStable_pairwise hc x (sortStable c xs) ih

theorem filter_insertStable_neg {α : Type _} (c : α → α → Ordering)
    (p : α → Bool) (x : α) (l : List α) (hpx : p x = false) :
    (insertStable c x l).filter p = l.filter p := by
  induction l with
  | nil => simp [insertStable, List.filter, hpx]
  | cons y ys ih =>
    unfold insertStable
    split
    · rw [List.filter_cons, List.filter_cons]
      cases hpy : p y <;> simp [hpy, ih]
    · rw [List.filter_cons, hpx]
      simp

theorem filter_insertStable_pos {α : Type _} {c : α → α → Ordering}
    (p : α → Bool) (x : α) (l : List α) (hpx : p x = true)
    (hgt : ∀ y ∈ l, c x y = .gt → p y = false) :
    (insertStable c x l).filter p = x :: l.filter p := by
  induction l with
  | nil => simp [insertStable, List.filter, hpx]
  | cons y ys ih =>
    unfold insertStable
    split
    · rename_i hxy
      have hpy : p y = false := hgt y (List.mem_cons_self y ys) hxy
      rw [List.filter_cons, hpy]
      simp only [Bool.false_eq_true, if_false]
      rw [ih (fun z hz => hgt z (List.mem_cons_of_mem y hz))]
      rw [List.filter_cons, hpy]
      simp
    · rw [List.filter_cons, hpx]
      simp

theorem filter_sortStable {α : Type _} {c : α → α → Ordering}
    (hc : LinCmp c) (l : List α) (r : α) :
    (sortStable c l).filter (fun s => decide (c s r = .eq)) =
      l.filter (fun s => decide (c s r = .eq)) := by
  induction l with
  | nil => rfl
  | cons x xs ih =>
    show (insertStable c x (sortStable c xs)).filter _ = _
    cases hx : decide (c x r = .eq) with
    | false =>
      rw [filter_insertStable_neg c _ x _ hx, ih, List.filter_cons, hx]
      simp
    | true =>
      have hxr : c x r = .eq := of_decide_eq_true hx
      rw [filter_insertStable_pos _ x _ hx ?hgt, ih, List.filter_cons, hx]
      · simp
      case hgt =>
        intro y _ hxy
        apply decide_eq_false
        intro hyr
        have : c x y = .eq := hc.eq_class hxr hyr
        rw [this] at hxy
        exact absurd hxy (by simp)

/-! ### Evaluation characterization

`runFilter` (the record walk of `_results`) decomposes into three phases:
the per-record cursor verdicts (`includeFlags`), the mask filter applied to
the traversal, and the limit truncation. -/

/-- The cursor resolver's verdict for each record of a traversal, threading
the `inRange` latch and the closure flag exactly as `runFilter` does. -/
def includeFlags (sf : StartFinder) :
    List (String × Value) → Bool → Bool → List Bool
  | [], _, _ => []
  | (k, _) :: rest, atStart, next =>
    let inR := atStart || (stepFinder sf next k).1
    let next2 := if atStart then next else (stepFinder sf next k).2
    inR :: includeFlags sf rest inR next2

/-- Selection of the records whose cursor verdict is `true`. -/
def maskFilter : List (String × Value) → List Bool → List (String × Value)
  | [], _ => []
  | _ :: _, [] => []
  | x :: xs, b :: bs =>
    if b then x :: maskFilter xs bs else maskFilter xs bs

/-- Truncation by the remaining limit budget: no-op for a non-positive
(unbounded) cap, otherwise at most `limited - cnt` further records. -/
def limitFrom (limited : Int) (cnt : Nat) (l : List (String × Value)) :
    List (String × Value) :=
  if limited ≤ 0 then l else l.take (limited.toNat - cnt)

theorem runFilter_eq (sf : StartFinder) (limited : Int) :
    ∀ (l : List (String × Value)) (atStart next : Bool) (cnt : Nat),
      runFilter sf limited l atStart next cnt =
        limitFrom limited cnt (maskFilter l (includeFlags sf l atStart next)) := by
  intro l
  induction l with
  | nil =>
    intro atStart next cnt
    simp [runFilter, includeFlags, maskFilter, limitFrom]
  | cons kv rest ih =>
    intro atStart next cnt
    obtain ⟨k, v⟩ := kv
    rw [runFilter, includeFlags]
    by_cases hin : (atStart || (stepFinder sf next k).1) = true
    · rw [hin]
      rw [show maskFilter ((k, v) :: rest)
            (true :: includeFlags sf rest true
              (if atStart = true then next else (stepFinder sf next k).2)) =
          (k, v) :: maskFilter rest (includeFlags sf rest true
              (if atStart = true then next else (stepFinder sf next k).2))
        from rfl]
      by_cases hle : limited ≤ 0
      · rw [if_pos ⟨rfl, Or.inl hle⟩, ih]
        unfold limitFrom
        rw [if_pos hle, if_pos hle]
      · by_cases hcnt : (cnt : Int) < limited
        · rw [if_pos ⟨rfl, Or.inr hcnt⟩, ih]
          unfold limitFrom
          rw [if_neg hle, if_neg hle]
          have harith : limited.toNat - cnt = (limited.toNat - (cnt + 1)) + 1 := by
            omega
          rw [harith, List.take_succ_cons]
        · rw [if_neg (by intro hand; exact absurd hand.2 (by
            intro hor; cases hor with
            | inl h1 => exact hle h1
            | inr h2 => exact hcnt h2)), ih]
          unfold limitFrom
          rw [if_neg hle, if_neg hle]
          have hz : limited.toNat - cnt = 0 := by omega
          rw [hz]
          simp
    · rw [Bool.not_eq_true] at hin
      rw [hin]
      rw [show maskFilter ((k, v) :: rest)
            (false :: includeFlags sf rest false
              (if atStart = true then next else (stepFinder sf next k).2)) =
          maskFilter rest (includeFlags sf rest false
              (if atStart = true then next else (stepFinder sf next k).2))
        from rfl]
      rw [if_neg (by intro hand; exact absurd hand.1 (by simp))]
      exact ih false _ cnt

/-- The post-filter, post-order, post-cursor record sequence of a query:
its traversal masked by the cursor verdicts, before limit truncation. -/
def Query.cursorMask (q : Query) : List (String × Value) :=
  maskFilter q.traversal (includeFlags q.startFinder q.traversal false false)

theorem traversal_nil_of_empty (q : Query) (h : q.data.isEmpty = true) :
    q.traversal = [] := by
  have hd : q.data = [] := by
    cases hq : q.data with
    | nil => rfl
    | cons a as => rw [hq] at h; simp [List.isEmpty] at h
  unfold Query.traversal
  rw [hd]
  split
  · rfl
  · rfl

/-- Characterization of `_results`: the cursor-masked traversal, truncated
to the cap when the cap is positive and returned whole otherwise. -/
theorem results_char (q : Query) :
    q.results =
      if q.limited ≤ 0 then q.cursorMask
      else q.cursorMask.take q.limited.toNat := by
  unfold Query.results
  split
  · rename_i hemp
    have ht : q.traversal = [] := traversal_nil_of_empty q hemp
    unfold Query.cursorMask
    rw [ht]
    simp [maskFilter, includeFlags]
  · rw [runFilter_eq]
    unfold limitFrom Query.cursorMask
    simp

/-! ### Cursor resolver characterization -/

/-- The verdict scan of the exclusive-after cursor closure: each record's
verdict is the captured flag's prior value, and the flag latches once the
referenced key is seen. -/
def afterScan (refId : String) : List (String × Value) → Bool → List Bool
  | [], _ => []
  | (k, _) :: rest, next => next :: afterScan refId rest (next || (k == refId))

theorem afterScan_true (refId : String) (l : List (String × Value)) :
    afterScan refId l true = List.replicate l.length true := by
  induction l with
  | nil => rfl
  | cons kv rest ih =>
    obtain ⟨k, v⟩ := kv
    rw [afterScan]
    simp [ih, List.replicate]

theorem includeFlags_true (sf : StartFinder) (l : List (String × Value))
    (next : Bool) :
    includeFlags sf l true next = List.replicate l.length true := by
  induction l generalizing next with
  | nil => rfl
  | cons kv rest ih =>
    obtain ⟨k, v⟩ := kv
    rw [includeFlags]
    simp [ih, List.replicate]

theorem includeFlags_afterKey (refId : String) (l : List (String × Value))
    (next : Bool) :
    includeFlags (.afterKey refId) l false next = afterScan refId l next := by
  induction l generalizing next with
  | nil => rfl
  | cons kv rest ih =>
    obtain ⟨k, v⟩ := kv
    rw [includeFlags, afterScan]
    cases next with
    | true =>
      simp only [stepFinder, if_pos rfl]
      simp [includeFlags_true, afterScan_true]
    | false =>
      simp only [stepFinder]
      simp [ih]

theorem afterScan_getD (refId : String) (l : List (String × Value))
    (next : Bool) (i : Nat) (h : i < l.length) :
    (afterScan refId l next).getD i false =
      (next || decide (refId ∈ (l.map Prod.fst).take i)) := by
  induction l generalizing next i with
  | nil => simp at h
  | cons kv rest ih =>
    obtain ⟨k, v⟩ := kv
    rw [afterScan]
    cases i with
    | zero => simp
    | succ j =>
      rw [List.getD_cons_succ]
      rw [ih (next || (k == refId)) j (by simpa using h)]
      have hk : (k == refId) = decide (refId = k) := by
        cases hkk : decide (refId = k) with
        | true => simp [of_decide_eq_true hkk]
        | false =>
          have hne : ¬ (refId = k) := of_decide_eq_false hkk
          simp [beq_iff_eq]
          intro hkr
          exact absurd hkr.symm hne
      rw [hk, List.map_cons, List.take_succ_cons]
      by_cases hmem : refId ∈ List.take j (List.map Prod.fst rest)
      · by_cases hek : refId = k <;>
          simp [hmem, hek, List.mem_cons, Bool.or_assoc]
      · by_cases hek : refId = k <;>
          simp [hmem, hek, List.mem_cons, Bool.or_assoc]

/-! ### Plain-query evaluation and delivery chains -/

theorem includeFlags_always (l : List (String × Value)) (next : Bool) :
    includeFlags .always l false next = List.replicate l.length true := by
  cases l with
  | nil => rfl
  | cons kv rest =>
    obtain ⟨k, v⟩ := kv
    rw [includeFlags]
    simp [stepFinder, includeFlags_true, List.replicate]

theorem maskFilter_replicate (l : List (String × Value)) :
    maskFilter l (List.replicate l.length true) = l := by
  induction l with
  | nil => rfl
  | cons kv rest ih => simp [List.replicate, maskFilter, ih]

/-- A query with no sort keys, no positive cap and the default cursor
builder evaluates to its data snapshot unchanged. -/
theorem results_plain (q : Query) (h1 : q.orderedProperties = [])
    (h2 : q.limited ≤ 0) (h3 : q.startFinder = .always) :
    q.results = q.data := by
  rw [results_char, if_pos h2]
  unfold Query.cursorMask
  have ht : q.traversal = q.data := by
    unfold Query.traversal
    rw [h1]
    simp
  rw [ht, h3, includeFlags_always, maskFilter_replicate]

theorem postDeliveries_chain (rs : List (List (String × Value))) :
    ∀ ctx, List.Chain' (fun a b => isEqRes b a = false)
      (ctx :: postDeliveries ctx false rs) := by
  induction rs with
  | nil => intro ctx; simp [postDeliveries]
  | cons r rest ih =>
    intro ctx
    rw [postDeliveries]
    by_cases hc : isEqRes r ctx = false
    · rw [if_pos (Or.inl hc)]
      exact List.chain'_cons.mpr ⟨hc, ih r⟩
    · rw [if_neg (by
        intro hor
        cases hor with
        | inl h1 => exact hc h1
        | inr h2 => exact absurd h2 (by simp))]
      exact ih ctx

/-! ### Heap lemmas -/

theorem getD_append_self {α : Type _} (l : List α) (o d : α) :
    (l ++ [o]).getD l.length d = o := by
  rw [List.getD_eq_getElem?_getD, List.getElem?_concat_length]
  rfl

theorem getD_set_self {α : Type _} (l : List α) (i : Nat)
    (hi : i < l.length) (o d : α) : (l.set i o).getD i d = o := by
  rw [List.getD_eq_getElem?_getD, List.getElem?_set_self' ]
  simp [List.getElem?_eq_getElem hi]

theorem getD_set_ne {α : Type _} (l : List α) (i j : Nat) (hij : i ≠ j)
    (o d : α) : (l.set i o).getD j d = l.getD j d := by
  rw [List.getD_eq_getElem?_getD, List.getElem?_set_ne hij,
    ← List.getD_eq_getElem?_getD]

theorem mkQueryH_snd (h : Heap) (data : List (String × Value))
    (parent : Option Nat) : (mkQueryH h data parent).2 = h.objs.length := by
  cases parent <;> rfl

theorem mkQueryH_length (h : Heap) (data : List (String × Value))
    (parent : Option Nat) :
    (mkQueryH h data parent).1.objs.length = h.objs.length + 1 := by
  cases parent <;> simp [mkQueryH]

theorem mkQueryH_read_lt (h : Heap) (data : List (String × Value))
    (parent : Option Nat) (i : Nat) (hi : i < h.objs.length) :
    (mkQueryH h data parent).1.read i = h.read i := by
  cases parent with
  | none => exact List.getD_append _ _ _ i hi
  | some p => exact List.getD_append _ _ _ i hi

theorem mkQueryH_read_new (h : Heap) (data : List (String × Value))
    (parent : Option Nat) :
    (mkQueryH h data parent).1.read (mkQueryH h data parent).2 =
      { data := data, orderedProperties := [], orderedDirections := [],
        limited := 0, startFinder := .always,
        queueId := match parent with
          | some p => (h.read p).queueId
          | none => h.nextQ,
        flushDelay := match parent with
          | some p => (h.read p).flushDelay
          | none => .off,
        parent := parent } := by
  cases parent <;>
    simp [mkQueryH, Heap.read, getD_append_self]

theorem cloneH_snd (h : Heap) (r : Nat) : (cloneH h r).2 = h.objs.length := by
  unfold cloneH
  simp [mkQueryH_snd]

theorem cloneH_read_lt (h : Heap) (r i : Nat) (hi : i < h.objs.length) :
    (cloneH h r).1.read i = h.read i := by
  unfold cloneH
  simp only []
  rw [show ∀ (hh : Heap) (j : Nat) (f : QObj → QObj), (hh.write j f).read i =
      (hh.objs.set j (f (hh.read j))).getD i default from fun _ _ _ => rfl]
  rw [getD_set_ne _ _ _ (by rw [mkQueryH_snd]; omega) _ _]
  exact mkQueryH_read_lt h _ _ i hi

theorem cloneH_read_new (h : Heap) (r : Nat) :
    (cloneH h r).1.read (cloneH h r).2 =
      { data := (h.read r).data,
        orderedProperties := (h.read r).orderedProperties,
        orderedDirections := (h.read r).orderedDirections,
        limited := (h.read r).limited,
        startFinder := (h.read r).startFinder,
        queueId := match (h.read r).parent with
          | some p => (h.read p).queueId
          | none => h.nextQ,
        flushDelay := match (h.read r).parent with
          | some p => (h.read p).flushDelay
          | none => .off,
        parent := (h.read r).parent } := by
  unfold cloneH
  simp only []
  rw [show ∀ (hh : Heap) (j : Nat) (f : QObj → QObj),
      (hh.write j f).read ((mkQueryH h (h.read r).data (h.read r).parent).2) =
      (hh.objs.set j (f (hh.read j))).getD
        ((mkQueryH h (h.read r).data (h.read r).parent).2) default
    from fun _ _ _ => rfl]
  rw [getD_set_self _ _ (by rw [mkQueryH_snd, mkQueryH_length]; omega)]
  rw [mkQueryH_read_new]

theorem cloneH_length (h : Heap) (r : Nat) :
    (cloneH h r).1.objs.length = h.objs.length + 1 := by
  unfold cloneH
  simp [Heap.write, List.length_set, mkQueryH_length]

theorem writeAtClone_read_lt (h : Heap) (r : Nat) (f : QObj → QObj)
    (i : Nat) (hi : i < h.objs.length) :
    (((cloneH h r).1.write ((cloneH h r).2) f)).read i = h.read i := by
  show (((cloneH h r).1.objs.set ((cloneH h r).2) _)).getD i default = _
  rw [getD_set_ne _ _ _ (by rw [cloneH_snd]; omega)]
  exact cloneH_read_lt h r i hi

theorem writeAtClone_read_new (h : Heap) (r : Nat) (f : QObj → QObj) :
    (((cloneH h r).1.write ((cloneH h r).2) f)).read ((cloneH h r).2) =
      f ((cloneH h r).1.read ((cloneH h r).2)) := by
  show (((cloneH h r).1.objs.set ((cloneH h r).2) _)).getD ((cloneH h r).2) default = _
  rw [getD_set_self _ _ (by rw [cloneH_snd, cloneH_length]; omega)]

theorem whereH_snd (h : Heap) (r : Nat) (prop : PropArg) (op : String)
    (v : Value) : (whereH h r prop op v).2 = h.objs.length := by
  unfold whereH
  split
  · exact cloneH_snd h r
  · split <;> exact cloneH_snd h r

theorem whereH_read_lt (h : Heap) (r : Nat) (prop : PropArg) (op : String)
    (v : Value) (i : Nat) (hi : i < h.objs.length) :
    (whereH h r prop op v).1.read i = h.read i := by
  unfold whereH
  split
  · exact cloneH_read_lt h r i hi
  · split <;> exact writeAtClone_read_lt h r _ i hi

theorem orderByH_snd (h : Heap) (r : Nat) (prop : PropArg)
    (d : Option String) : (orderByH h r prop d).2 = h.objs.length :=
  cloneH_snd h r

theorem orderByH_read_lt (h : Heap) (r : Nat) (prop : PropArg)
    (d : Option String) (i : Nat) (hi : i < h.objs.length) :
    (orderByH h r prop d).1.read i = h.read i :=
  writeAtClone_read_lt h r _ i hi

theorem limitH_snd (h : Heap) (r : Nat) (n : Int) :
    (limitH h r n).2 = h.objs.length :=
  cloneH_snd h r

theorem limitH_read_lt (h : Heap) (r : Nat) (n : Int) (i : Nat)
    (hi : i < h.objs.length) : (limitH h r n).1.read i = h.read i :=
  writeAtClone_read_lt h r _ i hi

theorem startAfterH_valid (h : Heap) (r : Nat) (doc : SADoc)
    (hd : doc.isSnapshot = true)
    (ho : (h.read r).orderedProperties.isEmpty = false) :
    startAfterH h r doc =
      .ok ((cloneH h r).1.write ((cloneH h r).2)
            (fun c => { c with startFinder := .afterKey doc.refId }),
          (cloneH h r).2) := by
  unfold startAfterH
  rw [if_neg (by rw [hd]; simp), if_neg (by rw [ho]; simp)]

theorem startAfterH_malformed (h : Heap) (r : Nat) (doc : SADoc)
    (hd : doc.isSnapshot = false) :
    startAfterH h r doc = .ok (h, r) := by
  unfold startAfterH
  rw [if_pos hd]

/-! ### Remaining helper lemmas -/

theorem get_ok (q : Query) (h : q.errs "get" = none) :
    q.get.1 = .ok q.results := by
  unfold Query.get nextErr
  rw [h]

theorem whereQ_eq (q : Query) (prop : PropArg) (v : Value) :
    q.whereQ prop "==" v =
      { q.clone with data := q.data.filter (whereMatches prop "==" v) } := by
  unfold Query.whereQ Query.whereW
  rw [if_neg (by decide)]
  by_cases hemp : q.data.isEmpty = true
  · rw [if_pos hemp]
    have hd : q.data = [] := by
      cases hq : q.data with
      | nil => rfl
      | cons a as => rw [hq] at hemp; simp [List.isEmpty] at hemp
    rw [hd]
    rfl
  · rw [if_neg hemp]

theorem lexComp_eq_iff {α : Type _} (cs : List (α → α → Ordering)) (a b : α) :
    lexComp cs a b = .eq ↔ ∀ c ∈ cs, c a b = .eq := by
  induction cs with
  | nil => simp [lexComp_nil]
  | cons c rest ih =>
    rw [lexComp_cons]
    cases hc : c a b with
    | eq => simp [hc, ih, List.forall_mem_cons]
    | lt => simp [hc, List.forall_mem_cons]
    | gt => simp [hc, List.forall_mem_cons]

theorem recCmp_eq_iff (specs : List (PropArg × String))
    (a b : String × Value) :
    recCmp specs a b = .eq ↔ ∀ pd ∈ specs, cmpDir pd.1 pd.2 a b = .eq := by
  unfold recCmp
  rw [lexComp_eq_iff]
  constructor
  · intro hall pd hpd
    exact hall _ (List.mem_map_of_mem _ hpd)
  · intro hall c hc
    obtain ⟨pd, hpd, hfc⟩ := List.mem_map.mp hc
    rw [← hfc]
    exact hall pd hpd

theorem cmpDir_eq_iff (p : PropArg) (d : String) (a b : String × Value) :
    cmpDir p d a b = .eq ↔ critOf p a = critOf p b := by
  unfold cmpDir
  split
  · rw [compare_eq_iff_eq]
    exact eq_comm
  · rw [compare_eq_iff_eq]

/-! ### Concrete instances used by the witnesses and counterexamples -/

/-- The spec's running example data `{a:{x:1}, b:{x:2}, c:{x:1}}`. -/
def exData : List (String × Value) :=
  [("a", .vobj [("x", .vnum 1)]),
   ("b", .vobj [("x", .vnum 2)]),
   ("c", .vobj [("x", .vnum 1)])]

/-- A plain query over the example data: no sort keys, no cap, default
cursor, no pending errors. -/
def exQ : Query :=
  { data := exData, orderedProperties := [], orderedDirections := [],
    limited := 0, startFinder := .always, errs := fun _ => none }

/-- The example query with an injected one-shot `onSnapshot` error. -/
def exQErr : Query :=
  { exQ with errs := fun t => if t = "onSnapshot" then some "boom" else none }

/-- The example query with an injected one-shot `get` error. -/
def exQGet : Query :=
  { exQ with errs := fun t => if t = "get" then some "gerr" else none }

/-- The example query ordered ascending by `x`. -/
def exQord : Query :=
  { exQ with orderedProperties := [.field ["x"]], orderedDirections := ["asc"] }

/-- The ordered example query with an exclusive-after cursor on key `a`. -/
def exQcur : Query :=
  { exQord with startFinder := .afterKey "a" }

/-- A heap holding one freshly constructed root query. -/
def c9heap : Heap := (mkQueryH { objs := [], nextQ := 0 } exData none).1

/-- The same root heap after `autoFlush(true)` on the root. -/
def c4root : Heap := autoFlushRootH c9heap 0 .asap

/-- The root heap after an `orderBy('x')` call on the root: the returned
clone (address 1) carries one sort key, so `startAfter` is valid on it. -/
def c4ord : Heap × Nat := orderByH c4root 0 (.field ["x"]) none

/-! ### Claims -/

/-- C1: for every record set and field path (over a plain query: no sort
keys, no cap, default cursor), `where(path, '==', value)` followed by
`get()` resolves with exactly the records whose value resolved at that
path deep-equals the target, in an order-preserving sublist of the
pre-filter traversal. -/
theorem claim_C1 (q : Query) (prop : PropArg) (v : Value)
    (h1 : q.orderedProperties = []) (h2 : q.limited ≤ 0)
    (h3 : q.startFinder = .always) :
    (Query.get (q.whereQ prop "==" v)).1 =
      .ok (q.data.filter (fun kv => isEqualOV (resolveProp prop kv) v))
    ∧ (q.data.filter (fun kv => isEqualOV (resolveProp prop kv) v)).Sublist
        q.data := by
  constructor
  · have hres := results_plain
      { q.clone with data := q.data.filter (whereMatches prop "==" v) }
      h1 h2 h3
    rw [whereQ_eq q prop v, get_ok _ rfl, hres]
    rfl
  · exact List.filter_sublist q.data

/-- C1 witness: on the spec's example data, `where('x','==',1)` then
`get()` yields exactly `{a:{x:1}, c:{x:1}}`. -/
theorem claim_C1_witness :
    (Query.get (exQ.whereQ (.field ["x"]) "==" (.vnum 1))).1 =
      .ok [("a", .vobj [("x", .vnum 1)]), ("c", .vobj [("x", .vnum 1)])]
    ∧ ([("a", Value.vobj [("x", .vnum 1)]), ("c", Value.vobj [("x", .vnum 1)])]
        : List (String × Value)).Sublist exQ.data := by
  have h := claim_C1 exQ (.field ["x"]) (.vnum 1) rfl (by decide) rfl
  exact ⟨h.1, h.2⟩

/-- C2: `startAfter` with a genuine document snapshot on a query with no
prior `orderBy` fails synchronously with the pagination-configuration
error, whatever the data contents. -/
theorem claim_C2 (q : Query) (doc : SADoc) (hd : doc.isSnapshot = true)
    (h : q.orderedProperties = []) :
    q.startAfter doc = .error "Query must be ordered to paginate" := by
  unfold Query.startAfter
  rw [if_neg (by rw [hd]; simp), if_pos (by rw [h]; rfl)]

/-- C2 witness: the concrete unordered example query rejects pagination. -/
theorem claim_C2_witness :
    exQ.startAfter { isSnapshot := true, refId := "a" } =
      .error "Query must be ordered to paginate" :=
  claim_C2 exQ { isSnapshot := true, refId := "a" } rfl rfl

/-- C5: with no pending error, an `onSnapshot` subscription delivers
exactly one synchronous initial callback carrying the current evaluation,
then only post-flush deliveries, each differing by deep equality from the
previously delivered result set (the include-metadata-changes option being
off). -/
theorem claim_C5 (q : Query) (fs : List (List (String × Value)))
    (h : q.errs "onSnapshot" = none) :
    q.snapEvents false fs =
      .next q.results ::
        (postDeliveries q.results false (fs.map q.resultsWith)).map .next
    ∧ List.Chain' (fun a b => isEqRes b a = false)
        (q.results :: postDeliveries q.results false (fs.map q.resultsWith)) := by
  constructor
  · unfold Query.snapEvents nextErr
    rw [h]
  · exact postDeliveries_chain _ q.results

/-- C5 witness: a concrete subscription over the example data with one
store change between flushes delivers the initial snapshot and exactly one
changed snapshot. -/
theorem claim_C5_witness :
    (exQ.errs "onSnapshot" = none)
    ∧ (exQ.snapEvents false [[("z", .vnum 5)]] =
        .next exQ.results ::
          (postDeliveries exQ.results false
            ([[("z", .vnum 5)]].map exQ.resultsWith)).map .next
      ∧ List.Chain' (fun a b => isEqRes b a = false)
          (exQ.results ::
            postDeliveries exQ.results false
              ([[("z", .vnum 5)]].map exQ.resultsWith))) :=
  ⟨rfl, claim_C5 exQ [[("z", .vnum 5)]] rfl⟩

/-- C6: for a query whose cursor builder is the exclusive-after closure
over a referenced document id, each evaluation builds the verdicts fresh:
the verdict at traversal position `i` is `true` exactly when the
referenced key occurs strictly before position `i`, so the referenced
record itself and everything before it are excluded and all strictly
subsequent records are included; the evaluation is the cursor-masked
traversal under the limit budget. -/
theorem claim_C6 (q : Query) (refId : String) (i : Nat)
    (hsf : q.startFinder = .afterKey refId) (hi : i < q.traversal.length) :
    (includeFlags q.startFinder q.traversal false false).getD i false =
      decide (refId ∈ (q.traversal.map Prod.fst).take i)
    ∧ q.results =
        limitFrom q.limited 0
          (maskFilter q.traversal
            (includeFlags q.startFinder q.traversal false false)) := by
  constructor
  · rw [hsf, includeFlags_afterKey, afterScan_getD refId _ false i hi]
    simp
  · rw [results_char]
    unfold limitFrom Query.cursorMask
    rw [Nat.sub_zero]

/-- C6 witness: on the ordered example traversal `a, c, b`, the cursor on
`a` excludes position 0 (the referenced record) and includes position 1. -/
theorem claim_C6_witness :
    ((includeFlags exQcur.startFinder exQcur.traversal false false).getD 1 false =
      decide ("a" ∈ (exQcur.traversal.map Prod.fst).take 1))
    ∧ exQcur.results =
        limitFrom exQcur.limited 0
          (maskFilter exQcur.traversal
            (includeFlags exQcur.startFinder exQcur.traversal false false)) := by
  have h := claim_C6 exQcur "a" 1 rfl (by decide)
  exact ⟨h.1, h.2⟩

/-- C7: `orderBy` appends a sort key (direction defaulting to ascending)
and evaluation under the declared keys is a stable multi-key sort: the
sorted traversal is a permutation of the data, pairwise ordered by the
left-to-right key comparator, and every class of records comparing equal
on all declared keys keeps its pre-sort relative order; comparing equal
means equal resolved sort keys at every declared `orderBy` key. -/
theorem claim_C7 :
    (∀ (q : Query) (prop : PropArg) (d : Option String),
      (q.orderBy prop d).orderedProperties = q.orderedProperties ++ [prop]
      ∧ (q.orderBy prop d).orderedDirections =
          q.orderedDirections ++ [d.getD "asc"]
      ∧ (q.orderBy prop none).orderedDirections =
          q.orderedDirections ++ ["asc"])
    ∧ (∀ (specs : List (PropArg × String)) (l : List (String × Value)),
        (sortStable (recCmp specs) l).Perm l)
    ∧ (∀ (specs : List (PropArg × String)) (l : List (String × Value)),
        (sortStable (recCmp specs) l).Pairwise
          (fun a b => recCmp specs a b ≠ .gt))
    ∧ (∀ (specs : List (PropArg × String)) (l : List (String × Value))
        (r : String × Value),
        (sortStable (recCmp specs) l).filter
            (fun s => decide (recCmp specs s r = .eq)) =
          l.filter (fun s => decide (recCmp specs s r = .eq)))
    ∧ (∀ (specs : List (PropArg × String)) (a b : String × Value),
        recCmp specs a b = .eq ↔
          ∀ pd ∈ specs, cmpDir pd.1 pd.2 a b = .eq)
    ∧ (∀ (p : PropArg) (d : String) (a b : String × Value),
        cmpDir p d a b = .eq ↔ critOf p a = critOf p b)
    ∧ (∀ (q : Query), q.orderedProperties.isEmpty = false →
        q.traversal = sortStable (recCmp q.specs) q.data) := by
  refine ⟨?_, ?_, ?_, ?_, ?_, ?_, ?_⟩
  · intro q prop d
    exact ⟨rfl, rfl, rfl⟩
  · intro specs l
    exact sortStable_perm _ l
  · intro specs l
    exact sortStable_pairwise (lincmp_recCmp specs) l
  · intro specs l r
    exact filter_sortStable (lincmp_recCmp specs) l r
  · intro specs a b
    exact recCmp_eq_iff specs a b
  · intro p d a b
    exact cmpDir_eq_iff p d a b
  · intro q hq
    unfold Query.traversal
    rw [hq]
    simp

/-- C7 witness: the ascending default on the example query and the sorted
traversal of the ordered example query, concretely. -/
theorem claim_C7_witness :
    ((exQ.orderBy (.field ["x"]) none).orderedDirections = ["asc"])
    ∧ exQord.traversal = sortStable (recCmp exQord.specs) exQord.data := by
  have h1 := (claim_C7.1 exQ (.field ["x"]) none).2.2
  have h2 := claim_C7.2.2.2.2.2.2 exQord (by decide)
  exact ⟨h1, h2⟩

/-- C8: `limit(n)` with positive `n` truncates the post-filter,
post-order, post-cursor sequence to its prefix of at most `n` records,
and `limit(n)` with `n ≤ 0` (including the unset default `0`) leaves the
whole sequence; `limit` does not disturb the sequence itself. -/
theorem claim_C8 (q : Query) (n : Int) :
    (0 < n →
      (q.limit n).results = ((q.limit n).cursorMask).take n.toNat
      ∧ ((q.limit n).results).length ≤ n.toNat)
    ∧ (n ≤ 0 → (q.limit n).results = (q.limit n).cursorMask)
    ∧ ((q.limit n).cursorMask = q.cursorMask) := by
  refine ⟨?_, ?_, rfl⟩
  · intro hpos
    have htr : (q.limit n).results = ((q.limit n).cursorMask).take n.toNat := by
      rw [results_char, show (q.limit n).limited = n from rfl,
        if_neg (by omega)]
    refine ⟨htr, ?_⟩
    rw [htr, List.length_take]
    exact min_le_left _ _
  · intro hle
    rw [results_char, show (q.limit n).limited = n from rfl, if_pos hle]

/-- C8 witness: on the example query, `limit(1)` evaluates to the one-record
prefix of the cursor-masked sequence and `limit(-1)` returns the whole
sequence. -/
theorem claim_C8_witness :
    ((exQ.limit 1).results = ((exQ.limit 1).cursorMask).take (1 : Int).toNat
      ∧ ((exQ.limit 1).results).length ≤ (1 : Int).toNat)
    ∧ (exQ.limit (-1)).results = (exQ.limit (-1)).cursorMask := by
  have h := claim_C8 exQ 1
  have h2 := claim_C8 exQ (-1)
  exact ⟨h.1 (by decide), h2.2.1 (by decide)⟩

/-- C10: `where` with an operator other than `==`, `array-contains` and
`in` surfaces the unsupported-operator warning and returns a clone whose
dataset is the receiver's entire dataset, so its evaluation equals the
receiver's; no error is raised (the operation is total). -/
theorem claim_C10 (q : Query) (prop : PropArg) (op : String) (v : Value)
    (h1 : op ≠ "==") (h2 : op ≠ "array-contains") (h3 : op ≠ "in") :
    (q.whereW prop op v).2 = true
    ∧ (q.whereQ prop op v).data = q.data
    ∧ (q.whereQ prop op v).results = q.results := by
  have hsup : supportedOp op = false := by
    unfold supportedOp
    simp [h1, h2, h3]
  unfold Query.whereQ Query.whereW
  rw [if_pos hsup]
  exact ⟨rfl, rfl, rfl⟩

/-- C10 witness: the unsupported operator `<` on the example query warns
and keeps every record. -/
theorem claim_C10_witness :
    (exQ.whereW (.field ["x"]) "<" (.vnum 1)).2 = true
    ∧ (exQ.whereQ (.field ["x"]) "<" (.vnum 1)).data = exQ.data
    ∧ (exQ.whereQ (.field ["x"]) "<" (.vnum 1)).results = exQ.results := by
  have h := claim_C10 exQ (.field ["x"]) "<" (.vnum 1)
    (by decide) (by decide) (by decide)
  exact ⟨h.1, h.2.1, h.2.2⟩

/-- C3 counterexample: with an injected `onSnapshot` error and a single
subsequent queue flush, the same subscription invokes its error callback
twice (once at subscription, once after the flush) — the injected error is
not delivered exactly once. -/
theorem claim_C3_cex :
    Query.snapEvents exQErr false [exData] = [.errE "boom", .errE "boom"]
    ∧ ¬ ((Query.snapEvents exQErr false [exData]).length = 1) := by
  constructor
  · rfl
  · intro hlen
    have h2 : (Query.snapEvents exQErr false [exData]).length = 2 := rfl
    rw [hlen] at h2
    exact absurd h2 (by decide)

/-- C3 (amended): a pre-registered injected error is consumed and cleared
by the first invocation of its read path, so every subsequent invocation
of the same operation succeeds normally; `get` rejects with it exactly
once, while an `onSnapshot` subscription delivers the captured error at
subscription time and again after every flush of that same
subscription. -/
theorem claim_C3_amended :
    (∀ (q : Query) (e : String), q.errs "get" = some e →
      q.get.1 = .error e
      ∧ ((q.get.2).get).1 = .ok (q.get.2).results)
    ∧ (∀ (q : Query) (e : String) (incMeta : Bool)
        (fs : List (List (String × Value))),
        q.errs "onSnapshot" = some e →
        q.snapEvents incMeta fs = .errE e :: fs.map (fun _ => .errE e)
        ∧ ∀ (incMeta2 : Bool) (fs2 : List (List (String × Value))),
            q.afterSnapshot.snapEvents incMeta2 fs2 =
              .next q.afterSnapshot.results ::
                (postDeliveries q.afterSnapshot.results incMeta2
                  (fs2.map q.afterSnapshot.resultsWith)).map .next) := by
  constructor
  · intro q e he
    constructor
    · unfold Query.get nextErr
      rw [he]
    · unfold Query.get nextErr
      rw [he]
      simp
  · intro q e incMeta fs he
    constructor
    · unfold Query.snapEvents nextErr
      rw [he]
    · intro incMeta2 fs2
      unfold Query.snapEvents Query.afterSnapshot nextErr
      simp

/-- C3 witness: the concrete injected `get` error rejects once and the
second `get` succeeds; the concrete injected `onSnapshot` error is
re-delivered after the flush and a fresh subscription afterwards succeeds
with a normal initial snapshot. -/
theorem claim_C3_witness :
    (exQGet.get.1 = .error "gerr"
      ∧ ((exQGet.get.2).get).1 = .ok (exQGet.get.2).results)
    ∧ Query.snapEvents exQErr false [exData] =
        [.errE "boom", .errE "boom"]
    ∧ Query.snapEvents (Query.afterSnapshot exQErr) false [] =
        [.next (Query.afterSnapshot exQErr).results] := by
  have hget := claim_C3_amended.1 exQGet "gerr" rfl
  have hsnap := claim_C3_amended.2 exQErr "boom" false [exData] rfl
  refine ⟨hget, hsnap.1, ?_⟩
  have h2 := hsnap.2 false []
  exact h2

/-- C4 counterexample: a root (parentless) query with auto-flush enabled
and the clone produced from it do not share the flush queue (the clone
allocates a fresh queue id) nor the auto-flush flag (the clone starts with
the flag off). -/
theorem claim_C4_cex :
    ((cloneH c4root 0).1.read (cloneH c4root 0).2).queueId ≠
        (c4root.read 0).queueId
    ∧ ((cloneH c4root 0).1.read (cloneH c4root 0).2).flushDelay ≠
        (c4root.read 0).flushDelay := by
  constructor
  · intro hq
    have h1 : ((cloneH c4root 0).1.read (cloneH c4root 0).2).queueId = 1 := rfl
    have h2 : (c4root.read 0).queueId = 0 := rfl
    rw [h1, h2] at hq
    exact absurd hq (by decide)
  · intro hf
    have h1 : ((cloneH c4root 0).1.read (cloneH c4root 0).2).flushDelay
        = .off := rfl
    have h2 : (c4root.read 0).flushDelay = .asap := rfl
    rw [h1, h2] at hf
    exact absurd hf (by decide)

/-- C4 (amended): the flush queue and auto-flush flag are inherited at
construction: a query constructed with a parent shares the parent's queue
id and copies its flag, and every clone — built by passing the receiver's
`parent` to the constructor — does the same, so a clone of a parented
query shares the parent's (hence the receiver's) queue; a clone of a
parentless query instead allocates a fresh queue and starts with
auto-flush off, sharing neither with the receiver.  The builder methods
(`where`, `orderBy`, `limit`, valid `startAfter`) preserve the clone's
queue id and flag. -/
theorem claim_C4_amended (h : Heap) (r : Nat) :
    (∀ p, (h.read r).parent = some p →
      ((cloneH h r).1.read (cloneH h r).2).queueId = (h.read p).queueId
      ∧ ((cloneH h r).1.read (cloneH h r).2).flushDelay =
          (h.read p).flushDelay)
    ∧ ((h.read r).parent = none →
      ((cloneH h r).1.read (cloneH h r).2).queueId = h.nextQ
      ∧ ((cloneH h r).1.read (cloneH h r).2).flushDelay = .off)
    ∧ (∀ (d : List (String × Value)) (p : Nat),
      ((mkQueryH h d (some p)).1.read (mkQueryH h d (some p)).2).queueId =
          (h.read p).queueId
      ∧ ((mkQueryH h d (some p)).1.read (mkQueryH h d (some p)).2).flushDelay =
          (h.read p).flushDelay)
    ∧ (∀ (prop : PropArg) (op : String) (v : Value),
      ((whereH h r prop op v).1.read (whereH h r prop op v).2).queueId =
          ((cloneH h r).1.read (cloneH h r).2).queueId
      ∧ ((whereH h r prop op v).1.read (whereH h r prop op v).2).flushDelay =
          ((cloneH h r).1.read (cloneH h r).2).flushDelay)
    ∧ (∀ (prop : PropArg) (d : Option String),
      ((orderByH h r prop d).1.read (orderByH h r prop d).2).queueId =
          ((cloneH h r).1.read (cloneH h r).2).queueId
      ∧ ((orderByH h r prop d).1.read (orderByH h r prop d).2).flushDelay =
          ((cloneH h r).1.read (cloneH h r).2).flushDelay)
    ∧ (∀ (n : Int),
      ((limitH h r n).1.read (limitH h r n).2).queueId =
          ((cloneH h r).1.read (cloneH h r).2).queueId
      ∧ ((limitH h r n).1.read (limitH h r n).2).flushDelay =
          ((cloneH h r).1.read (cloneH h r).2).flushDelay)
    ∧ (∀ (doc : SADoc), doc.isSnapshot = true →
        (h.read r).orderedProperties.isEmpty = false →
        ∃ h2 r2, startAfterH h r doc = .ok (h2, r2)
          ∧ (h2.read r2).queueId = ((cloneH h r).1.read (cloneH h r).2).queueId
          ∧ (h2.read r2).flushDelay =
              ((cloneH h r).1.read (cloneH h r).2).flushDelay) := by
  refine ⟨?_, ?_, ?_, ?_, ?_, ?_, ?_⟩
  · intro p hp
    rw [cloneH_read_new, hp]
    exact ⟨rfl, rfl⟩
  · intro hp
    rw [cloneH_read_new, hp]
    exact ⟨rfl, rfl⟩
  · intro d p
    rw [mkQueryH_read_new]
    exact ⟨rfl, rfl⟩
  · intro prop op v
    unfold whereH
    split
    · exact ⟨rfl, rfl⟩
    · split <;>
        rw [writeAtClone_read_new] <;> exact ⟨rfl, rfl⟩
  · intro prop d
    unfold orderByH
    rw [writeAtClone_read_new]
    exact ⟨rfl, rfl⟩
  · intro n
    unfold limitH
    rw [writeAtClone_read_new]
    exact ⟨rfl, rfl⟩
  · intro doc hd ho
    refine ⟨_, _, startAfterH_valid h r doc hd ho, ?_, ?_⟩
    · rw [writeAtClone_read_new]
    · rw [writeAtClone_read_new]

/-- C4 witness: a child constructed under the root shares queue id 0 with
its parent, and so does the clone produced from that child; the root
clone of the counterexample heap gets the fresh queue id and the cleared
flag; and `orderBy`, `limit` and a valid `startAfter` on the ordered clone
all preserve the clone's queue id, as the amended claim states. -/
theorem claim_C4_witness :
    (((cloneH (mkQueryH c9heap exData (some 0)).1
          (mkQueryH c9heap exData (some 0)).2).1.read
        (cloneH (mkQueryH c9heap exData (some 0)).1
          (mkQueryH c9heap exData (some 0)).2).2).queueId =
      ((mkQueryH c9heap exData (some 0)).1.read 0).queueId)
    ∧ (((cloneH c4root 0).1.read (cloneH c4root 0).2).queueId = c4root.nextQ
      ∧ ((cloneH c4root 0).1.read (cloneH c4root 0).2).flushDelay = .off)
    ∧ (((orderByH c4root 0 (.field ["x"]) none).1.read
          (orderByH c4root 0 (.field ["x"]) none).2).queueId =
        ((cloneH c4root 0).1.read (cloneH c4root 0).2).queueId)
    ∧ (((limitH c4root 0 1).1.read (limitH c4root 0 1).2).flushDelay =
        ((cloneH c4root 0).1.read (cloneH c4root 0).2).flushDelay)
    ∧ (∃ h2 r2,
        startAfterH c4ord.1 c4ord.2 { isSnapshot := true, refId := "a" } =
          .ok (h2, r2)
        ∧ (h2.read r2).queueId =
            ((cloneH c4ord.1 c4ord.2).1.read
              (cloneH c4ord.1 c4ord.2).2).queueId
        ∧ (h2.read r2).flushDelay =
            ((cloneH c4ord.1 c4ord.2).1.read
              (cloneH c4ord.1 c4ord.2).2).flushDelay) := by
  have h1 := (claim_C4_amended (mkQueryH c9heap exData (some 0)).1
    (mkQueryH c9heap exData (some 0)).2).1 0 (by decide)
  have h2 := (claim_C4_amended c4root 0).2.1 (by decide)
  have h3 := (claim_C4_amended c4root 0).2.2.2.2.1 (.field ["x"]) none
  have h4 := (claim_C4_amended c4root 0).2.2.2.2.2.1 1
  have h5 := (claim_C4_amended c4ord.1 c4ord.2).2.2.2.2.2.2
    { isSnapshot := true, refId := "a" } rfl (by decide)
  exact ⟨h1.1, h2, h3.1, h4.2, h5⟩

/-- C9 counterexample: `startAfter` called with a malformed (non-snapshot)
argument returns the receiver itself on the untouched heap, not a new
instance — so not every builder call returns a new instance. -/
theorem claim_C9_cex :
    ¬ (∃ h2 r2, startAfterH c9heap 0 { isSnapshot := false, refId := "" } =
        .ok (h2, r2) ∧ r2 ≠ 0) := by
  rintro ⟨h2, r2, heq, hne⟩
  have hok : startAfterH c9heap 0 { isSnapshot := false, refId := "" } =
      .ok (c9heap, 0) := rfl
  rw [hok] at heq
  simp only [Except.ok.injEq, Prod.mk.injEq] at heq
  exact hne heq.2.symm

/-- C9 (amended): `where`, `orderBy` and `limit` always, and `startAfter`
with a valid snapshot argument on an ordered query, return a freshly
allocated instance and leave the receiver and every other existing object
untouched (so the receiver's own subsequent evaluation is unaffected);
`startAfter` with a malformed argument leaves the heap untouched but
returns the receiver itself rather than a new instance. -/
theorem claim_C9_amended (h : Heap) (r : Nat) (hr : r < h.objs.length)
    (prop : PropArg) (op : String) (v : Value) (d : Option String) (n : Int)
    (doc : SADoc) :
    ((whereH h r prop op v).2 ≠ r
      ∧ ∀ i, i < h.objs.length → (whereH h r prop op v).1.read i = h.read i)
    ∧ ((orderByH h r prop d).2 ≠ r
      ∧ ∀ i, i < h.objs.length → (orderByH h r prop d).1.read i = h.read i)
    ∧ ((limitH h r n).2 ≠ r
      ∧ ∀ i, i < h.objs.length → (limitH h r n).1.read i = h.read i)
    ∧ (doc.isSnapshot = true →
        (h.read r).orderedProperties.isEmpty = false →
        ∃ h2 r2, startAfterH h r doc = .ok (h2, r2) ∧ r2 ≠ r
          ∧ ∀ i, i < h.objs.length → h2.read i = h.read i)
    ∧ (doc.isSnapshot = false → startAfterH h r doc = .ok (h, r)) := by
  refine ⟨⟨?_, ?_⟩, ⟨?_, ?_⟩, ⟨?_, ?_⟩, ?_, ?_⟩
  · rw [whereH_snd]; omega
  · intro i hi; exact whereH_read_lt h r prop op v i hi
  · rw [orderByH_snd]; omega
  · intro i hi; exact orderByH_read_lt h r prop d i hi
  · rw [limitH_snd]; omega
  · intro i hi; exact limitH_read_lt h r n i hi
  · intro hd ho
    refine ⟨_, _, startAfterH_valid h r doc hd ho, ?_, ?_⟩
    · rw [cloneH_snd]; omega
    · intro i hi
      exact writeAtClone_read_lt h r _ i hi
  · intro hd
    exact startAfterH_malformed h r doc hd

/-- C9 witness: on the singleton heap, `where` returns the fresh address 1
and leaves the receiver's cell unchanged, and malformed `startAfter`
returns the receiver's own address 0 on the untouched heap. -/
theorem claim_C9_witness :
    ((whereH c9heap 0 (.field ["x"]) "==" (.vnum 1)).2 ≠ 0)
    ∧ ((whereH c9heap 0 (.field ["x"]) "==" (.vnum 1)).1.read 0 =
        c9heap.read 0)
    ∧ (startAfterH c9heap 0 { isSnapshot := false, refId := "" } =
        .ok (c9heap, 0)) := by
  have h := claim_C9_amended c9heap 0 (by decide) (.field ["x"]) "=="
    (.vnum 1) none 0 { isSnapshot := false, refId := "" }
  exact ⟨h.1.1, h.1.2 0 (by decide), h.2.2.2.2 rfl⟩

end FirebaseMock
